import Mathlib

/-!
Shallow embedding of the skia-board interaction engine: the item registry
(useItemRegistry.ts), the gesture controller (useCanvasGestureController.ts),
the transform batcher (useBatchedTransformEnd.ts) and the multiselect state
machine (useMultiSelect).  Machine numbers are modelled as rationals; the JS
Map and Set are modelled as insertion-ordered lists; JS object identity of a
registry entry is modelled by an explicit token field that is assigned at
creation and never changed by an in-place update.
-/

namespace SkiaBoard

/-- Externally supplied board item descriptor (types.ts, BoardItemBase):
id, optional groupId and optional geometry/zIndex fields. -/
structure BoardItemData where
  id : String
  groupId : Option String := none
  x : Option ℚ := none
  y : Option ℚ := none
  width : Option ℚ := none
  height : Option ℚ := none
  rotation : Option ℚ := none
  zIndex : Option ℚ := none
deriving DecidableEq

/-- Internal registry entry (types.ts, RegistryItem).  The shared-value cells
x/y/width/height/rotation are flattened to plain rationals; `image` is the
opaque decoded-image handle; `tok` models the JS object identity of the
entry (fresh at creation, preserved by in-place mutation). -/
structure RegistryItem where
  id : String
  groupId : Option String
  x : ℚ
  y : ℚ
  width : ℚ
  height : ℚ
  rotation : ℚ
  zIndex : ℚ
  image : Option ℕ
  data : BoardItemData
  tok : ℕ
deriving DecidableEq

/-- The registry: the JS Map of id to RegistryItem, modelled as its
insertion-ordered entry list (unique ids). -/
abbrev Registry := List RegistryItem

structure Point where
  x : ℚ
  y : ℚ
deriving DecidableEq

/-- registry.current.get(id) (useItemRegistry.ts getItem). -/
def getItem (reg : Registry) (id : String) : Option RegistryItem :=
  reg.find? (fun it => it.id == id)

/-- Stable insertion step for the ascending zIndex sort: the new element goes
in front of the first element whose zIndex is not smaller, so an element
inserted later stays after earlier elements with an equal zIndex. -/
def insertAsc (a : RegistryItem) : List RegistryItem → List RegistryItem
  | [] => [a]
  | b :: bs => if b.zIndex < a.zIndex then b :: insertAsc a bs else a :: b :: bs

/-- Stable ascending sort by zIndex, the semantics of the JS stable
Array.sort with comparator a.zIndex - b.zIndex. -/
def sortByZAsc : List RegistryItem → List RegistryItem
  | [] => []
  | a :: as => insertAsc a (sortByZAsc as)

/-- Stable insertion step for the descending zIndex sort. -/
def insertDesc (a : RegistryItem) : List RegistryItem → List RegistryItem
  | [] => [a]
  | b :: bs => if a.zIndex < b.zIndex then b :: insertDesc a bs else a :: b :: bs

/-- Stable descending sort by zIndex, the semantics of the JS stable
Array.sort with comparator b.zIndex - a.zIndex. -/
def sortByZDesc : List RegistryItem → List RegistryItem
  | [] => []
  | a :: as => insertDesc a (sortByZDesc as)

/-- getSortedItems (useItemRegistry.ts lines 78-82): all entries ordered by
ascending zIndex (paint order). -/
def getSortedItems (reg : Registry) : List RegistryItem :=
  sortByZAsc reg

/-- The containment test of findItemAtPoint (useItemRegistry.ts lines 99-104):
the closed axis-aligned box [x, x+width] times [y, y+height]. -/
def containsPoint (it : RegistryItem) (p : Point) : Bool :=
  it.x ≤ p.x && p.x ≤ it.x + it.width && it.y ≤ p.y && p.y ≤ it.y + it.height

/-- findItemAtPoint (useItemRegistry.ts lines 88-109): sort descending by
zIndex and return the first entry whose box contains the point. -/
def findItemAtPoint (reg : Registry) (p : Point) : Option RegistryItem :=
  (sortByZDesc reg).find? (fun it => containsPoint it p)

/-- getGroupItems (useItemRegistry.ts lines 112-116). -/
def getGroupItems (reg : Registry) (groupId : String) : List RegistryItem :=
  reg.filter (fun it => it.groupId == some groupId)

/-- The in-place update of an existing entry during sync (useItemRegistry.ts
lines 34-42): geometry defaults x=0, y=0, width=200, height=200, rotation=0,
zIndex=0 are re-applied for absent fields; id, image and identity token are
untouched. -/
def updateItem (existing : RegistryItem) (item : BoardItemData) : RegistryItem :=
  { existing with
    x := item.x.getD 0
    y := item.y.getD 0
    width := item.width.getD 200
    height := item.height.getD 200
    rotation := item.rotation.getD 0
    zIndex := item.zIndex.getD 0
    groupId := item.groupId
    data := item }

/-- Creation of a fresh entry during sync (useItemRegistry.ts lines 44-55):
provided-or-default values, null image, a fresh identity token. -/
def newItem (item : BoardItemData) (tok : ℕ) : RegistryItem :=
  { id := item.id
    groupId := item.groupId
    x := item.x.getD 0
    y := item.y.getD 0
    width := item.width.getD 200
    height := item.height.getD 200
    rotation := item.rotation.getD 0
    zIndex := item.zIndex.getD 0
    image := none
    data := item
    tok := tok }

/-- The deletion pass of sync (useItemRegistry.ts lines 23-29): entries whose
id is absent from the supplied list are removed. -/
def removeStale (reg : Registry) (items : List BoardItemData) : Registry :=
  reg.filter (fun it => items.any (fun d => d.id == it.id))

/-- One step of the add-or-update pass of sync (useItemRegistry.ts lines
32-57); the second component is the fresh-token counter, bumped exactly when
a new entry is created. -/
def upsertOne (acc : Registry × ℕ) (item : BoardItemData) : Registry × ℕ :=
  match acc.1.find? (fun it => it.id == item.id) with
  | some _ =>
    (acc.1.map (fun it => if it.id == item.id then updateItem it item else it), acc.2)
  | none => (acc.1 ++ [newItem item acc.2], acc.2 + 1)

/-- The reconciliation body of sync for a non-empty item list. -/
def syncItems (reg : Registry) (items : List BoardItemData) (fresh : ℕ) :
    Registry × ℕ :=
  items.foldl upsertOne (removeStale reg items, fresh)

/-- The whole sync effect (useItemRegistry.ts lines 17-61), including the
version counter: an undefined or empty list clears the registry and returns
early, before the setVersion call; a non-empty list reconciles and then
increments the version. -/
def sync (reg : Registry) (items : Option (List BoardItemData))
    (version : ℕ) (fresh : ℕ) : Registry × ℕ × ℕ :=
  match items with
  | none => ([], version, fresh)
  | some its =>
    if its.isEmpty then ([], version, fresh)
    else
      let rf := syncItems reg its fresh
      (rf.1, version + 1, rf.2)

/-- Multiselect state (useMultiSelect): the independently stored isActive
flag and the selected-id set, modelled as an insertion-ordered list. -/
structure MultiSelectState where
  isActive : Bool
  selectedIds : List String
deriving DecidableEq

/-- Initial multiselect state: useState(false), useState(new Set()). -/
def MultiSelectState.init : MultiSelectState :=
  { isActive := false, selectedIds := [] }

/-- activate (useMultiSelect lines 168-171). -/
def MultiSelectState.activate (_s : MultiSelectState) (id : String) :
    MultiSelectState :=
  { isActive := true, selectedIds := [id] }

/-- The next selected set computed by toggle (useMultiSelect lines
174-180): delete if present, add if absent. -/
def toggledSelectedIds (s : MultiSelectState) (id : String) : List String :=
  if id ∈ s.selectedIds then s.selectedIds.erase id else s.selectedIds ++ [id]

/-- toggle (useMultiSelect lines 173-186): the set becomes
toggledSelectedIds; setIsActive(false) fires only when the resulting set is
empty, otherwise the flag keeps its previous value. -/
def MultiSelectState.toggle (s : MultiSelectState) (id : String) :
    MultiSelectState :=
  { isActive := if (toggledSelectedIds s id).isEmpty then false else s.isActive
    selectedIds := toggledSelectedIds s id }

/-- clear (useMultiSelect lines 188-191). -/
def MultiSelectState.clear (_s : MultiSelectState) : MultiSelectState :=
  { isActive := false, selectedIds := [] }

/-- One multiselect operation. -/
inductive MSOp where
  | activate (id : String)
  | toggle (id : String)
  | clear
deriving DecidableEq

def applyMSOp (s : MultiSelectState) : MSOp → MultiSelectState
  | .activate id => s.activate id
  | .toggle id => s.toggle id
  | .clear => s.clear

def runMSOps (s : MultiSelectState) (ops : List MSOp) : MultiSelectState :=
  ops.foldl applyMSOp s

/-- A run in which every toggle is issued while the selected set is
non-empty (as the gesture controller does: it only forwards toggles while
multiselect is active). -/
def goodMSRun (s : MultiSelectState) : List MSOp → Bool
  | [] => true
  | op :: rest =>
    (match op with
     | .toggle _ => !s.selectedIds.isEmpty
     | _ => true) && goodMSRun (applyMSOp s op) rest

/-- Camera shared values (scale, translateX, translateY). -/
structure Camera where
  scale : ℚ
  translateX : ℚ
  translateY : ℚ
deriving DecidableEq

/-- Inverse camera mapping used by the gesture hit tests
(useCanvasGestureController.ts lines 80-81): canvas = (screen - translate) / scale. -/
def screenToCanvas (cam : Camera) (p : Point) : Point :=
  { x := (p.x - cam.translateX) / cam.scale
    y := (p.y - cam.translateY) / cam.scale }

/-- The gesture controller state: the mode shared value (0 idle,
1 panning-canvas, 2 dragging-item), the saved camera/scale values, the
drag-start position of the hit item, and the JS-thread refs holding the hit
item, the group/selected drag companions and their captured start
positions (useCanvasGestureController.ts lines 55-73). -/
structure GestureRefs where
  mode : ℕ
  savedCameraX : ℚ
  savedCameraY : ℚ
  savedScale : ℚ
  dragStartItemX : ℚ
  dragStartItemY : ℚ
  activeItem : Option RegistryItem
  groupItems : List RegistryItem
  groupStartPositions : List (String × ℚ × ℚ)
deriving DecidableEq

/-- Initial shared values of the controller. -/
def GestureRefs.init : GestureRefs :=
  { mode := 0, savedCameraX := 0, savedCameraY := 0, savedScale := 1
    dragStartItemX := 0, dragStartItemY := 0
    activeItem := none, groupItems := [], groupStartPositions := [] }

/-- beginGesture (useCanvasGestureController.ts lines 78-126): inverse-map
the screen point, hit-test, and either set up a drag (capturing the hit
item's origin and, when applicable, the multiselect-selected items or the
hit item's whole group with their origins) or start a canvas pan. -/
def beginGesture (reg : Registry) (ms : MultiSelectState) (cam : Camera)
    (refs : GestureRefs) (screenX screenY : ℚ) : GestureRefs :=
  let canvasPt := screenToCanvas cam { x := screenX, y := screenY }
  match findItemAtPoint reg canvasPt with
  | some hitItem =>
    let refs := { refs with
      activeItem := some hitItem
      dragStartItemX := hitItem.x
      dragStartItemY := hitItem.y }
    if ms.isActive && ms.selectedIds.contains hitItem.id then
      let selectedItems := ms.selectedIds.filterMap (fun id => getItem reg id)
      { refs with
        groupItems := selectedItems
        groupStartPositions := selectedItems.map (fun si => (si.id, si.x, si.y))
        mode := 2 }
    else
      match hitItem.groupId with
      | some g =>
        let groupItems := getGroupItems reg g
        { refs with
          groupItems := groupItems
          groupStartPositions := groupItems.map (fun gi => (gi.id, gi.x, gi.y))
          mode := 2 }
      | none =>
        { refs with groupItems := [], groupStartPositions := [], mode := 2 }
  | none =>
    { refs with
      activeItem := none
      savedCameraX := cam.translateX
      savedCameraY := cam.translateY
      mode := 1 }

/-- Write a new x/y into the registry entry with the given id (the gesture
code mutates the entry through its object reference; with unique ids this is
the same as an update keyed by id). -/
def setItemPos (reg : Registry) (id : String) (nx ny : ℚ) : Registry :=
  reg.map (fun it => if it.id == id then { it with x := nx, y := ny } else it)

/-- Read back the live x/y of the entry with the given id. -/
def getItemPos (reg : Registry) (id : String) : Option (ℚ × ℚ) :=
  (getItem reg id).map (fun it => (it.x, it.y))

/-- applyDrag (useCanvasGestureController.ts lines 147-165): the active item
moves to its captured origin plus the delta, and every other drag companion
with a recorded start position moves to that start plus the same delta. -/
def applyDrag (reg : Registry) (refs : GestureRefs) (dx dy : ℚ) : Registry :=
  match refs.activeItem with
  | none => reg
  | some item =>
    let reg1 := setItemPos reg item.id
      (refs.dragStartItemX + dx) (refs.dragStartItemY + dy)
    refs.groupItems.foldl
      (fun r gi =>
        if gi.id == item.id then r
        else
          match refs.groupStartPositions.find? (fun e => e.1 == gi.id) with
          | some s => setItemPos r gi.id (s.2.1 + dx) (s.2.2 + dy)
          | none => r)
      reg1

/-- The dragging-item branch of the pan onUpdate worklet
(useCanvasGestureController.ts lines 261-264): the cumulative translation is
divided by the current camera scale and handed to applyDrag. -/
def panUpdateDragging (reg : Registry) (cam : Camera) (refs : GestureRefs)
    (translationX translationY : ℚ) : Registry :=
  applyDrag reg refs (translationX / cam.scale) (translationY / cam.scale)

/-- The drag set: the items whose ids endDrag reports
(useCanvasGestureController.ts lines 170-185) and that applyDrag moves —
the whole companion list when one was captured, else the hit item alone. -/
def dragSet (refs : GestureRefs) : List RegistryItem :=
  match refs.activeItem with
  | none => []
  | some a => if refs.groupItems.isEmpty then [a] else refs.groupItems

/-- Whole-board state for the pinch claims: registry, camera, controller. -/
structure BoardState where
  reg : Registry
  cam : Camera
  refs : GestureRefs
deriving DecidableEq

/-- Pinch onBegin (useCanvasGestureController.ts lines 289-292): capture the
current camera scale. -/
def pinchBegin (s : BoardState) : BoardState :=
  { s with refs := { s.refs with savedScale := s.cam.scale } }

/-- Pinch onUpdate (useCanvasGestureController.ts lines 293-296): the camera
scale becomes the captured scale times the recognizer's live ratio; nothing
else is written. -/
def pinchUpdate (s : BoardState) (ratio : ℚ) : BoardState :=
  { s with cam := { s.cam with scale := s.refs.savedScale * ratio } }

/-- One {id, snapshot} pair of the batched commit payload
(useBatchedTransformEnd.ts snapshotItem, lines 4-13). -/
structure SnapshotEvent where
  id : String
  x : ℚ
  y : ℚ
  width : ℚ
  height : ℚ
  rotation : ℚ
deriving DecidableEq

def snapshotItem (it : RegistryItem) : SnapshotEvent :=
  { id := it.id, x := it.x, y := it.y, width := it.width
    height := it.height, rotation := it.rotation }

/-- Add an id to the dirty set (JS Set.add: no-op when present, append
otherwise). -/
def addDirty (dirty : List String) (id : String) : List String :=
  if id ∈ dirty then dirty else dirty ++ [id]

/-- The dirty-marking part of a notify call (useBatchedTransformEnd.ts lines
54-62): the id itself, plus — read from the registry now, at notify time —
every sibling of its group when it has one. -/
def notifyDirty (reg : Registry) (id : String) (dirty : List String) :
    List String :=
  match getItem reg id with
  | some it =>
    match it.groupId with
    | some g =>
      (getGroupItems reg g).foldl (fun acc gi => addDirty acc gi.id)
        (addDirty dirty id)
    | none => addDirty dirty id
  | none => addDirty dirty id

/-- The flush payload (useBatchedTransformEnd.ts lines 69-72): each dirty id
is looked up in the registry, ids no longer present are dropped, the rest
are snapshotted now, at flush time. -/
def flushPayload (reg : Registry) (dirty : List String) : List SnapshotEvent :=
  dirty.filterMap (fun id => (getItem reg id).map snapshotItem)

/-- Batcher state: the dirty set and the pending timer deadline. -/
structure BatchState where
  dirty : List String
  deadline : Option ℕ
deriving DecidableEq

def BatchState.init : BatchState := { dirty := [], deadline := none }

/-- The timer body (useBatchedTransformEnd.ts lines 66-76) run at its
deadline: an empty dirty set delivers nothing; otherwise the payload is
built from the registry as of now and the dirty set and timer are cleared. -/
def fireTimer (reg : Registry) (d : ℕ) (s : BatchState) :
    BatchState × List (ℕ × List SnapshotEvent) :=
  if s.dirty.isEmpty then ({ s with deadline := none }, [])
  else ({ dirty := [], deadline := none }, [(d, flushPayload reg s.dirty)])

/-- Timed run of the batcher: each notify marks dirty ids (group expansion
from the registry at that instant) and restarts the single 150 ms timer
(useBatchedTransformEnd.ts lines 64-76); a pending timer whose deadline
falls before the next notify fires first; after the last notify the pending
timer fires at its deadline.  `regAt` gives the registry contents at each
instant; the result is the final state and the delivered commits, each
tagged with its delivery time. -/
def runEvents (regAt : ℕ → Registry) :
    List (ℕ × String) → BatchState → BatchState × List (ℕ × List SnapshotEvent)
  | [], s =>
    match s.deadline with
    | none => (s, [])
    | some d => fireTimer (regAt d) d s
  | (t, id) :: rest, s =>
    let stepped : BatchState × List (ℕ × List SnapshotEvent) :=
      match s.deadline with
      | some d => if d ≤ t then fireTimer (regAt d) d s else (s, [])
      | none => (s, [])
    let s1 : BatchState :=
      { dirty := notifyDirty (regAt t) id stepped.1.dirty
        deadline := some (t + 150) }
    let res := runEvents regAt rest s1
    (res.1, stepped.2 ++ res.2)

/-- The cleanup effect of the batcher (useBatchedTransformEnd.ts lines
38-51): clear the timer and, when the dirty set is non-empty, deliver the
payload built from the registry as of teardown immediately. -/
def teardown (reg : Registry) (s : BatchState) :
    BatchState × Option (List SnapshotEvent) :=
  ({ dirty := [], deadline := none },
   if s.dirty.isEmpty then none else some (flushPayload reg s.dirty))

/-- Strictly increasing notify times, each within the 150 ms quiet window of
the previous one. -/
def chainedFrom (prev : ℕ) : List (ℕ × String) → Bool
  | [] => true
  | (t, _) :: rest => (prev < t && t < prev + 150) && chainedFrom t rest

/-- The time of the last event, `prev` when there is none. -/
def lastTime (prev : ℕ) : List (ℕ × String) → ℕ
  | [] => prev
  | (t, _) :: rest => lastTime t rest

/-- The dirty set accumulated over a sequence of notify calls. -/
def accDirty (regAt : ℕ → Registry) (d : List String) :
    List (ℕ × String) → List String
  | [] => d
  | (t, id) :: rest => accDirty regAt (notifyDirty (regAt t) id d) rest

/-! Helper lemmas about the two stable sorts and list search. -/

theorem insertAsc_perm (a : RegistryItem) (l : List RegistryItem) :
    (insertAsc a l).Perm (a :: l) := by
  induction l with
  | nil => exact List.Perm.refl _
  | cons b bs ih =>
    simp only [insertAsc]
    by_cases h : b.zIndex < a.zIndex
    · rw [if_pos h]
      exact (ih.cons b).trans (List.Perm.swap a b bs)
    · rw [if_neg h]

theorem sortByZAsc_perm (l : List RegistryItem) : (sortByZAsc l).Perm l := by
  induction l with
  | nil => exact List.Perm.refl _
  | cons a as ih =>
    simp only [sortByZAsc]
    exact (insertAsc_perm a (sortByZAsc as)).trans (ih.cons a)

theorem insertDesc_perm (a : RegistryItem) (l : List RegistryItem) :
    (insertDesc a l).Perm (a :: l) := by
  induction l with
  | nil => exact List.Perm.refl _
  | cons b bs ih =>
    simp only [insertDesc]
    by_cases h : a.zIndex < b.zIndex
    · rw [if_pos h]
      exact (ih.cons b).trans (List.Perm.swap a b bs)
    · rw [if_neg h]

theorem sortByZDesc_perm (l : List RegistryItem) : (sortByZDesc l).Perm l := by
  induction l with
  | nil => exact List.Perm.refl _
  | cons a as ih =>
    simp only [sortByZDesc]
    exact (insertDesc_perm a (sortByZDesc as)).trans (ih.cons a)

theorem insertDesc_sorted (a : RegistryItem) (l : List RegistryItem)
    (h : l.Pairwise (fun u v => v.zIndex ≤ u.zIndex)) :
    (insertDesc a l).Pairwise (fun u v => v.zIndex ≤ u.zIndex) := by
  induction l with
  | nil => simp [insertDesc]
  | cons b bs ih =>
    rcases List.pairwise_cons.mp h with ⟨hb, hbs⟩
    simp only [insertDesc]
    by_cases hlt : a.zIndex < b.zIndex
    · rw [if_pos hlt]
      refine List.pairwise_cons.mpr ⟨?_, ih hbs⟩
      intro y hy
      have hy' : y ∈ a :: bs := (insertDesc_perm a bs).mem_iff.mp hy
      rcases List.mem_cons.mp hy' with rfl | hybs
      · exact le_of_lt hlt
      · exact hb y hybs
    · rw [if_neg hlt]
      refine List.pairwise_cons.mpr ⟨?_, h⟩
      intro y hy
      rcases List.mem_cons.mp hy with rfl | hybs
      · exact le_of_not_lt hlt
      · exact le_trans (hb y hybs) (le_of_not_lt hlt)

theorem sortByZDesc_sorted (l : List RegistryItem) :
    (sortByZDesc l).Pairwise (fun u v => v.zIndex ≤ u.zIndex) := by
  induction l with
  | nil => simp [sortByZDesc]
  | cons a as ih => exact insertDesc_sorted a (sortByZDesc as) ih

theorem sublist_insertAsc_self (a : RegistryItem) (l : List RegistryItem) :
    l.Sublist (insertAsc a l) := by
  induction l with
  | nil => simp [insertAsc]
  | cons b bs ih =>
    simp only [insertAsc]
    by_cases h : b.zIndex < a.zIndex
    · rw [if_pos h]
      exact ih.cons₂ b
    · rw [if_neg h]
      exact (List.Sublist.refl (b :: bs)).cons a

theorem pair_sublist_insertAsc (a b : RegistryItem) (m : List RegistryItem)
    (hbm : b ∈ m) (hz : ¬ b.zIndex < a.zIndex) :
    [a, b].Sublist (insertAsc a m) := by
  induction m with
  | nil => cases hbm
  | cons c cs ih =>
    simp only [insertAsc]
    by_cases h : c.zIndex < a.zIndex
    · rw [if_pos h]
      have hbcs : b ∈ cs := by
        rcases List.mem_cons.mp hbm with rfl | hb
        · exact absurd h hz
        · exact hb
      exact (ih hbcs).cons c
    · rw [if_neg h]
      exact (List.singleton_sublist.mpr hbm).cons₂ a

theorem pair_sublist_sortByZAsc (a b : RegistryItem) (l : List RegistryItem)
    (hz : a.zIndex = b.zIndex) (h : [a, b].Sublist l) :
    [a, b].Sublist (sortByZAsc l) := by
  induction l with
  | nil => exact absurd h.length_le (by simp)
  | cons x xs ih =>
    simp only [sortByZAsc]
    cases h with
    | cons _ h1 => exact (ih h1).trans (sublist_insertAsc_self x (sortByZAsc xs))
    | cons₂ _ h1 =>
      have hb : b ∈ sortByZAsc xs :=
        (sortByZAsc_perm xs).mem_iff.mpr (List.singleton_sublist.mp h1)
      exact pair_sublist_insertAsc a b (sortByZAsc xs) hb
        (by rw [← hz]; exact lt_irrefl _)

theorem pair_sublist_of_insertDesc (a b c : RegistryItem)
    (m : List RegistryItem) (hz : a.zIndex = b.zIndex)
    (h : [a, b].Sublist (insertDesc c m)) :
    [a, b].Sublist m ∨ (c = a ∧ b ∈ m) := by
  induction m with
  | nil =>
    simp only [insertDesc] at h
    exact absurd h.length_le (by simp)
  | cons d ds ih =>
    simp only [insertDesc] at h
    by_cases hcd : c.zIndex < d.zIndex
    · rw [if_pos hcd] at h
      cases h with
      | cons _ h1 =>
        rcases ih h1 with h2 | ⟨hca, hbm⟩
        · exact Or.inl (h2.cons d)
        · exact Or.inr ⟨hca, List.mem_cons_of_mem d hbm⟩
      | cons₂ _ h1 =>
        have hb : b ∈ insertDesc c ds := List.singleton_sublist.mp h1
        rcases List.mem_cons.mp ((insertDesc_perm c ds).mem_iff.mp hb) with rfl | hbds
        · rw [hz] at hcd
          exact absurd hcd (lt_irrefl _)
        · exact Or.inl ((List.singleton_sublist.mpr hbds).cons₂ _)
    · rw [if_neg hcd] at h
      cases h with
      | cons _ h1 => exact Or.inl h1
      | cons₂ _ h1 => exact Or.inr ⟨rfl, List.singleton_sublist.mp h1⟩

theorem pair_sublist_of_sortByZDesc (a b : RegistryItem)
    (l : List RegistryItem) (hz : a.zIndex = b.zIndex)
    (h : [a, b].Sublist (sortByZDesc l)) : [a, b].Sublist l := by
  induction l with
  | nil =>
    simp only [sortByZDesc] at h
    exact absurd h.length_le (by simp)
  | cons x xs ih =>
    simp only [sortByZDesc] at h
    rcases pair_sublist_of_insertDesc a b x (sortByZDesc xs) hz h with h1 | ⟨rfl, hb⟩
    · exact (ih h1).cons x
    · exact (List.singleton_sublist.mpr ((sortByZDesc_perm xs).mem_iff.mp hb)).cons₂ _

theorem find?_max_z (p : Point) (l : List RegistryItem)
    (hs : l.Pairwise (fun u v => v.zIndex ≤ u.zIndex)) (a : RegistryItem)
    (h : l.find? (fun it => containsPoint it p) = some a) :
    ∀ b ∈ l, containsPoint b p = true → b.zIndex ≤ a.zIndex := by
  induction l with
  | nil => cases h
  | cons x xs ih =>
    rcases List.pairwise_cons.mp hs with ⟨hx, hxs⟩
    intro b hb hcb
    by_cases hcx : containsPoint x p = true
    · have hstep : (x :: xs).find? (fun it => containsPoint it p) = some x :=
        List.find?_cons_of_pos xs hcx
      rw [hstep] at h
      cases h
      rcases List.mem_cons.mp hb with rfl | hbxs
      · exact le_refl _
      · exact hx b hbxs
    · have hstep : (x :: xs).find? (fun it => containsPoint it p) =
          xs.find? (fun it => containsPoint it p) :=
        List.find?_cons_of_neg xs (by simpa using hcx)
      rw [hstep] at h
      rcases List.mem_cons.mp hb with rfl | hbxs
      · exact absurd hcb hcx
      · exact ih hxs h b hbxs hcb

theorem find?_first_pair (p : RegistryItem → Bool) (l : List RegistryItem)
    (a : RegistryItem) (h : l.find? p = some a) (b : RegistryItem)
    (hb : b ∈ l) (hpb : p b = true) (hne : b ≠ a) : [a, b].Sublist l := by
  induction l with
  | nil => cases h
  | cons x xs ih =>
    by_cases hpx : p x = true
    · have hstep : (x :: xs).find? p = some x := List.find?_cons_of_pos xs hpx
      rw [hstep] at h
      cases h
      have hbxs : b ∈ xs := by
        rcases List.mem_cons.mp hb with rfl | hb'
        · exact absurd rfl hne
        · exact hb'
      exact (List.singleton_sublist.mpr hbxs).cons₂ _
    · have hstep : (x :: xs).find? p = xs.find? p :=
        List.find?_cons_of_neg xs (by simpa using hpx)
      rw [hstep] at h
      have hbxs : b ∈ xs := by
        rcases List.mem_cons.mp hb with rfl | hb'
        · exact absurd hpb hpx
        · exact hb'
      exact (ih h hbxs).cons x

theorem toggle_isActive (s : MultiSelectState) (id : String) :
    (s.toggle id).isActive =
      if (toggledSelectedIds s id).isEmpty then false else s.isActive := rfl

theorem toggle_selectedIds (s : MultiSelectState) (id : String) :
    (s.toggle id).selectedIds = toggledSelectedIds s id := rfl

/-! Helper lemmas about the batcher. -/

theorem addDirty_ne_nil (d : List String) (i : String) : addDirty d i ≠ [] := by
  by_cases h : i ∈ d
  · rw [addDirty, if_pos h]
    intro hnil
    rw [hnil] at h
    cases h
  · rw [addDirty, if_neg h]
    simp

theorem foldl_addDirty_ne_nil (l : List RegistryItem) (d : List String)
    (hd : d ≠ []) : l.foldl (fun acc gi => addDirty acc gi.id) d ≠ [] := by
  induction l generalizing d with
  | nil => exact hd
  | cons x xs ih => exact ih _ (addDirty_ne_nil d x.id)

theorem notifyDirty_ne_nil (reg : Registry) (i : String) (d : List String) :
    notifyDirty reg i d ≠ [] := by
  unfold notifyDirty
  split
  · split
    · exact foldl_addDirty_ne_nil _ _ (addDirty_ne_nil d i)
    · exact addDirty_ne_nil d i
  · exact addDirty_ne_nil d i

theorem mem_addDirty_self (d : List String) (i : String) : i ∈ addDirty d i := by
  by_cases h : i ∈ d
  · rw [addDirty, if_pos h]
    exact h
  · rw [addDirty, if_neg h]
    simp

theorem mem_addDirty_of_mem (d : List String) (i j : String) (h : j ∈ d) :
    j ∈ addDirty d i := by
  by_cases hmem : i ∈ d
  · rw [addDirty, if_pos hmem]
    exact h
  · rw [addDirty, if_neg hmem]
    exact List.mem_append_left _ h

theorem mem_foldl_addDirty_of_mem (l : List RegistryItem) (d : List String)
    (j : String) (h : j ∈ d) :
    j ∈ l.foldl (fun acc x => addDirty acc x.id) d := by
  induction l generalizing d with
  | nil => exact h
  | cons x xs ih => exact ih _ (mem_addDirty_of_mem _ _ _ h)

theorem mem_foldl_addDirty (l : List RegistryItem) (d : List String)
    (gi : RegistryItem) (h : gi ∈ l) :
    gi.id ∈ l.foldl (fun acc x => addDirty acc x.id) d := by
  induction l generalizing d with
  | nil => cases h
  | cons x xs ih =>
    rcases List.mem_cons.mp h with rfl | hxs
    · exact mem_foldl_addDirty_of_mem xs _ _ (mem_addDirty_self d gi.id)
    · exact ih (addDirty d x.id) hxs

theorem group_mem_notifyDirty (reg : Registry) (i : String) (d : List String)
    (it : RegistryItem) (hgi : getItem reg i = some it) (g : String)
    (hg : it.groupId = some g) (gi : RegistryItem)
    (hmem : gi ∈ getGroupItems reg g) : gi.id ∈ notifyDirty reg i d := by
  simp only [notifyDirty, hgi, hg]
  exact mem_foldl_addDirty _ _ gi hmem

theorem getItem_eq_some_id (reg : Registry) (i : String) (it : RegistryItem)
    (h : getItem reg i = some it) : it.id = i := by
  have := List.find?_some h
  simpa using this

theorem mem_flushPayload_iff (reg : Registry) (dirty : List String)
    (i : String) :
    (∃ e ∈ flushPayload reg dirty, e.id = i) ↔
      (i ∈ dirty ∧ (getItem reg i).isSome) := by
  constructor
  · rintro ⟨e, he, rfl⟩
    rcases List.mem_filterMap.mp he with ⟨j, hj, hje⟩
    cases hgj : getItem reg j with
    | none =>
      rw [hgj] at hje
      cases hje
    | some it =>
      rw [hgj] at hje
      injection hje with hje
      have hid : e.id = j := by
        rw [← hje]
        exact getItem_eq_some_id reg j it hgj
      rw [hid]
      exact ⟨hj, by rw [hgj]; rfl⟩
  · rintro ⟨hi, hsome⟩
    cases hgi : getItem reg i with
    | none =>
      rw [hgi] at hsome
      cases hsome
    | some it =>
      refine ⟨snapshotItem it, ?_, ?_⟩
      · exact List.mem_filterMap.mpr ⟨i, hi, by rw [hgi]; rfl⟩
      · exact getItem_eq_some_id reg i it hgi

theorem mem_flushPayload_snapshot (reg : Registry) (dirty : List String)
    (e : SnapshotEvent) (he : e ∈ flushPayload reg dirty) :
    ∃ it, getItem reg e.id = some it ∧ e = snapshotItem it := by
  rcases List.mem_filterMap.mp he with ⟨j, hj, hje⟩
  cases hgj : getItem reg j with
  | none =>
    rw [hgj] at hje
    cases hje
  | some it =>
    rw [hgj] at hje
    injection hje with hje
    refine ⟨it, ?_, hje.symm⟩
    have hid : e.id = j := by
      rw [← hje]
      exact getItem_eq_some_id reg j it hgj
    rw [hid]
    exact hgj

theorem snapshot_mem_flushPayload (reg : Registry) (dirty : List String)
    (i : String) (it : RegistryItem) (hi : i ∈ dirty)
    (hgi : getItem reg i = some it) :
    snapshotItem it ∈ flushPayload reg dirty :=
  List.mem_filterMap.mpr ⟨i, hi, by rw [hgi]; rfl⟩

/-- After a notify, as long as every later notify lands inside the quiet
window of the one before it, the pending timer never fires in between; it
fires once, 150 units after the last notify, delivering the accumulated
dirty set snapshotted against the registry at that instant. -/
theorem runEvents_pending (regAt : ℕ → Registry) :
    ∀ (events : List (ℕ × String)) (prev : ℕ) (d : List String), d ≠ [] →
    chainedFrom prev events = true →
    runEvents regAt events { dirty := d, deadline := some (prev + 150) } =
      ({ dirty := [], deadline := none },
       [(lastTime prev events + 150,
         flushPayload (regAt (lastTime prev events + 150))
           (accDirty regAt d events))]) := by
  intro events
  induction events with
  | nil =>
    intro prev d hd _
    simp only [runEvents, lastTime, accDirty, fireTimer]
    rw [if_neg (by simpa [List.isEmpty_iff] using hd)]
  | cons e rest ih =>
    obtain ⟨t, id⟩ := e
    intro prev d hd hch
    simp only [chainedFrom, Bool.and_eq_true, decide_eq_true_eq] at hch
    simp only [runEvents]
    rw [if_neg (by omega : ¬ prev + 150 ≤ t)]
    simp only [lastTime, accDirty]
    rw [ih t _ (notifyDirty_ne_nil _ _ _) hch.2]
    simp

/-! Helper lemmas about sync. -/

/-- The entry for a supplied descriptor is present and is a fixed point of
the in-place update. -/
def FixedFor (r : Registry) (d : BoardItemData) : Prop :=
  ∃ e, r.find? (fun it => it.id == d.id) = some e ∧ updateItem e d = e

theorem updateItem_id (e : RegistryItem) (d : BoardItemData) :
    (updateItem e d).id = e.id := rfl

theorem ids_map_upd (r : Registry) (d : BoardItemData) :
    (r.map (fun it => if it.id == d.id then updateItem it d else it)).map
        (fun it => it.id) =
      r.map (fun it => it.id) := by
  rw [List.map_map]
  refine List.map_congr_left ?_
  intro a _
  by_cases h : (a.id == d.id) = true
  · simp only [Function.comp, if_pos h, updateItem_id]
  · simp only [Function.comp, if_neg h]

theorem find?_map_upd (r : Registry) (d : BoardItemData) (j : String) :
    (r.map (fun it => if it.id == d.id then updateItem it d else it)).find?
        (fun it => it.id == j) =
      (r.find? (fun it => it.id == j)).map
        (fun it => if it.id == d.id then updateItem it d else it) := by
  rw [List.find?_map]
  have hp : ((fun it => it.id == j) ∘
        (fun it => if it.id == d.id then updateItem it d else it)) =
      (fun it : RegistryItem => it.id == j) := by
    funext a
    by_cases h : (a.id == d.id) = true
    · simp only [Function.comp, if_pos h, updateItem_id]
    · simp only [Function.comp, if_neg h]
  rw [hp]

theorem find?_append_of_none {α : Type} (l₁ l₂ : List α) (p : α → Bool)
    (h : l₁.find? p = none) : (l₁ ++ l₂).find? p = l₂.find? p := by
  induction l₁ with
  | nil => rfl
  | cons a as ih =>
    cases hpa : p a with
    | true =>
      rw [List.find?_cons_of_pos as hpa] at h
      cases h
    | false =>
      have h1 : (a :: as).find? p = as.find? p :=
        List.find?_cons_of_neg as (by simp [hpa])
      rw [h1] at h
      have h2 : ((a :: as) ++ l₂).find? p = (as ++ l₂).find? p :=
        List.find?_cons_of_neg (as ++ l₂) (by simp [hpa])
      rw [h2, ih h]

theorem find?_append_of_some {α : Type} (l₁ l₂ : List α) (p : α → Bool)
    (a : α) (h : l₁.find? p = some a) : (l₁ ++ l₂).find? p = some a := by
  induction l₁ with
  | nil => cases h
  | cons b bs ih =>
    cases hpb : p b with
    | true =>
      rw [List.find?_cons_of_pos bs hpb] at h
      have h2 : ((b :: bs) ++ l₂).find? p = some b :=
        List.find?_cons_of_pos (bs ++ l₂) hpb
      rw [h2, h]
    | false =>
      have h1 : (b :: bs).find? p = bs.find? p :=
        List.find?_cons_of_neg bs (by simp [hpb])
      rw [h1] at h
      have h2 : ((b :: bs) ++ l₂).find? p = (bs ++ l₂).find? p :=
        List.find?_cons_of_neg (bs ++ l₂) (by simp [hpb])
      rw [h2, ih h]

theorem find?_id_eq_none (r : Registry) (j : String) :
    r.find? (fun it => it.id == j) = none ↔ ∀ it ∈ r, it.id ≠ j := by
  rw [List.find?_eq_none]
  simp

theorem find?_eq_of_mem_nodup (r : Registry)
    (hnd : (r.map (fun it => it.id)).Nodup) (it : RegistryItem)
    (hit : it ∈ r) : r.find? (fun x => x.id == it.id) = some it := by
  induction r with
  | nil => cases hit
  | cons a as ih =>
    simp only [List.map_cons, List.nodup_cons] at hnd
    rcases List.mem_cons.mp hit with rfl | hmem
    · exact List.find?_cons_of_pos as (by simp)
    · have hne : (a.id == it.id) = false := by
        simp only [beq_eq_false_iff_ne, ne_eq]
        intro he
        exact hnd.1 (he ▸ List.mem_map_of_mem (fun x => x.id) hmem)
      have hstep : ((a :: as).find? fun x => x.id == it.id) =
          as.find? (fun x => x.id == it.id) :=
        List.find?_cons_of_neg as (by simp [hne])
      rw [hstep]
      exact ih hnd.2 hmem

theorem map_upd_of_absent (r : Registry) (d : BoardItemData)
    (h : ∀ it ∈ r, it.id ≠ d.id) :
    r.map (fun it => if it.id == d.id then updateItem it d else it) = r := by
  induction r with
  | nil => rfl
  | cons a as ih =>
    simp only [List.map_cons]
    rw [if_neg (by simp [h a (List.mem_cons_self a as)]),
      ih (fun it hmem => h it (List.mem_cons_of_mem a hmem))]

theorem map_upd_eq_self (r : Registry) (d : BoardItemData)
    (hnd : (r.map (fun it => it.id)).Nodup) (e : RegistryItem)
    (hfind : r.find? (fun it => it.id == d.id) = some e)
    (hfix : updateItem e d = e) :
    r.map (fun it => if it.id == d.id then updateItem it d else it) = r := by
  induction r with
  | nil => rfl
  | cons a as ih =>
    simp only [List.map_cons, List.nodup_cons] at hnd
    by_cases ha : (a.id == d.id) = true
    · have hae : a = e := by
        have := List.find?_cons_of_pos as ha (p := fun it => it.id == d.id)
        rw [this] at hfind
        injection hfind
      have haid : a.id = d.id := by simpa using ha
      have habs : ∀ it ∈ as, it.id ≠ d.id := by
        intro it hmem he
        exact hnd.1 (by
          rw [haid, ← he]
          exact List.mem_map_of_mem (fun x => x.id) hmem)
      simp only [List.map_cons]
      rw [if_pos ha, map_upd_of_absent as d habs, hae, hfix]
    · have hstep : ((a :: as).find? fun it => it.id == d.id) =
          as.find? (fun it => it.id == d.id) :=
        List.find?_cons_of_neg as (by simp [ha])
      rw [hstep] at hfind
      simp only [List.map_cons]
      rw [if_neg ha, ih hnd.2 hfind]

theorem updateItem_fix_updateItem (e : RegistryItem) (d : BoardItemData) :
    updateItem (updateItem e d) d = updateItem e d := rfl

theorem updateItem_fix_newItem (d : BoardItemData) (f : ℕ) :
    updateItem (newItem d f) d = newItem d f := rfl

theorem nodup_ids_append_new (r : Registry) (w : RegistryItem)
    (hnd : (r.map (fun it => it.id)).Nodup) (habs : ∀ it ∈ r, it.id ≠ w.id) :
    ((r ++ [w]).map (fun it => it.id)).Nodup := by
  rw [List.map_append]
  simp only [List.map_cons, List.map_nil]
  rw [List.nodup_append]
  refine ⟨hnd, List.nodup_singleton _, ?_⟩
  intro x hx hx2
  rcases List.mem_map.mp hx with ⟨it, hmem, rfl⟩
  exact habs it hmem (List.mem_singleton.mp hx2)

/-- Characterization of the add-or-update fold: ids stay unique, every
supplied descriptor ends with a present fixed-point entry, and entries at
ids not supplied are untouched. -/
theorem syncFold_spec :
    ∀ (items : List BoardItemData) (st : Registry × ℕ),
    (st.1.map (fun it => it.id)).Nodup →
    (items.map (fun d => d.id)).Nodup →
    ((items.foldl upsertOne st).1.map (fun it => it.id)).Nodup ∧
    (∀ d ∈ items, FixedFor (items.foldl upsertOne st).1 d) ∧
    (∀ j : String, (∀ d ∈ items, d.id ≠ j) →
      (items.foldl upsertOne st).1.find? (fun it => it.id == j) =
        st.1.find? (fun it => it.id == j)) := by
  intro items
  induction items with
  | nil =>
    intro st hnd _
    exact ⟨hnd, fun d hd => absurd hd (List.not_mem_nil d), fun j _ => rfl⟩
  | cons d rest ih =>
    intro st hnd hids
    simp only [List.map_cons, List.nodup_cons] at hids
    have step : ((upsertOne st d).1.map (fun it => it.id)).Nodup ∧
        FixedFor (upsertOne st d).1 d ∧
        (∀ j : String, d.id ≠ j →
          (upsertOne st d).1.find? (fun it => it.id == j) =
            st.1.find? (fun it => it.id == j)) := by
      cases hfd : st.1.find? (fun it => it.id == d.id) with
      | some e =>
        simp only [upsertOne, hfd]
        have hupd : (st.1.map
              (fun it => if it.id == d.id then updateItem it d else it)).find?
                (fun it => it.id == d.id) =
            some (updateItem e d) := by
          rw [find?_map_upd, hfd]
          have hbeq := List.find?_some hfd
          have heid : e.id = d.id := by simpa using hbeq
          simp [heid]
        refine ⟨by rw [ids_map_upd]; exact hnd,
          ⟨updateItem e d, hupd, updateItem_fix_updateItem e d⟩, ?_⟩
        intro j hj
        rw [find?_map_upd]
        cases hfj : st.1.find? (fun it => it.id == j) with
        | none => rfl
        | some ej =>
          have hejid0 := List.find?_some hfj
          have hejid : ej.id = j := by simpa using hejid0
          have hfalse : (ej.id == d.id) = false := by
            simp only [beq_eq_false_iff_ne, ne_eq, hejid]
            exact fun he => hj he.symm
          simp [hfalse]
          intro he
          exact absurd he (by simpa using hfalse)
      | none =>
        simp only [upsertOne, hfd]
        have habs : ∀ it ∈ st.1, it.id ≠ d.id :=
          (find?_id_eq_none st.1 d.id).mp hfd
        have hnew : ((st.1 ++ [newItem d st.2]).find?
              (fun it => it.id == d.id)) = some (newItem d st.2) := by
          rw [find?_append_of_none _ _ _ hfd]
          exact List.find?_cons_of_pos [] (by simp [newItem])
        refine ⟨nodup_ids_append_new st.1 (newItem d st.2) hnd habs,
          ⟨newItem d st.2, hnew, updateItem_fix_newItem d st.2⟩, ?_⟩
        intro j hj
        cases hfj : st.1.find? (fun it => it.id == j) with
        | some ej => rw [find?_append_of_some _ _ _ _ hfj]
        | none =>
          rw [find?_append_of_none _ _ _ hfj]
          exact List.find?_cons_of_neg [] (by simpa [newItem] using hj)
    have hmain := ih (upsertOne st d) step.1 hids.2
    refine ⟨hmain.1, ?_, ?_⟩
    · intro d' hd'
      rcases List.mem_cons.mp hd' with rfl | hrest
      · have hnotin : ∀ dr ∈ rest, dr.id ≠ d'.id := by
          intro dr hdr he
          exact hids.1 (he ▸ List.mem_map_of_mem (fun x => x.id) hdr)
        rcases step.2.1 with ⟨e, hfind, hfix⟩
        refine ⟨e, ?_, hfix⟩
        rw [List.foldl_cons, hmain.2.2 d'.id hnotin]
        exact hfind
      · have := hmain.2.1 d' hrest
        rwa [List.foldl_cons]
    · intro j hj
      rw [List.foldl_cons, hmain.2.2 j
          (fun dr hdr => hj dr (List.mem_cons_of_mem d hdr)),
        step.2.2 j (hj d (List.mem_cons_self d rest))]

/-- Ids produced by the fold stay inside a set containing the start ids and
the supplied ids. -/
theorem syncFold_ids_subset :
    ∀ (items : List BoardItemData) (st : Registry × ℕ) (S : List String),
    (∀ e ∈ st.1, e.id ∈ S) → (∀ d ∈ items, d.id ∈ S) →
    ∀ e ∈ (items.foldl upsertOne st).1, e.id ∈ S := by
  intro items
  induction items with
  | nil => intro st S hst _ e he; exact hst e he
  | cons d rest ih =>
    intro st S hst hitems e he
    refine ih (upsertOne st d) S ?_
      (fun d' hd' => hitems d' (List.mem_cons_of_mem d hd')) e he
    intro e' he'
    cases hfd : st.1.find? (fun it => it.id == d.id) with
    | some w =>
      simp only [upsertOne, hfd] at he'
      rcases List.mem_map.mp he' with ⟨e0, hmem, rfl⟩
      by_cases hc : (e0.id == d.id) = true
      · rw [if_pos hc, updateItem_id]
        exact hst e0 hmem
      · rw [if_neg hc]
        exact hst e0 hmem
    | none =>
      simp only [upsertOne, hfd] at he'
      rcases List.mem_append.mp he' with hmem | hmem
      · exact hst e' hmem
      · rw [List.mem_singleton.mp hmem]
        exact hitems d (List.mem_cons_self d rest)

/-- A fold whose every descriptor already has a fixed-point entry is the
identity. -/
theorem syncFold_fixed_eq :
    ∀ (items : List BoardItemData) (st : Registry × ℕ),
    (st.1.map (fun it => it.id)).Nodup →
    (∀ d ∈ items, FixedFor st.1 d) →
    items.foldl upsertOne st = st := by
  intro items
  induction items with
  | nil => intro st _ _; rfl
  | cons d rest ih =>
    intro st hnd hfix
    obtain ⟨e, hfind, hfixe⟩ := hfix d (List.mem_cons_self d rest)
    have hstep : upsertOne st d = st := by
      simp only [upsertOne, hfind]
      rw [map_upd_eq_self st.1 d hnd e hfind hfixe]
    rw [List.foldl_cons, hstep]
    exact ih st hnd (fun d' hd' => hfix d' (List.mem_cons_of_mem d hd'))

theorem mem_removeStale (reg : Registry) (items : List BoardItemData)
    (e : RegistryItem) (h : e ∈ removeStale reg items) :
    e ∈ reg ∧ ∃ d ∈ items, d.id = e.id := by
  have := List.mem_filter.mp h
  refine ⟨this.1, ?_⟩
  have := this.2
  simp only [List.any_eq_true, beq_iff_eq] at this
  exact this

theorem removeStale_nodup (reg : Registry) (items : List BoardItemData)
    (hnd : (reg.map (fun it => it.id)).Nodup) :
    ((removeStale reg items).map (fun it => it.id)).Nodup :=
  hnd.sublist ((List.filter_sublist reg).map (fun it => it.id))

theorem removeStale_eq_self (r : Registry) (items : List BoardItemData)
    (h : ∀ e ∈ r, ∃ d ∈ items, d.id = e.id) : removeStale r items = r := by
  refine List.filter_eq_self.mpr ?_
  intro e hmem
  simp only [List.any_eq_true, beq_iff_eq]
  exact h e hmem

/-! Concrete fixtures used by witnesses and counterexamples. -/

/-- Item A of the spec hit-test example: box (0,0)-(100,100), zIndex 0. -/
def itemHitA : RegistryItem :=
  { id := "A", groupId := none, x := 0, y := 0, width := 100, height := 100
    rotation := 0, zIndex := 0, image := none, data := { id := "A" }, tok := 0 }

/-- Item B of the spec hit-test example: box (50,50)-(150,150), zIndex 1. -/
def itemHitB : RegistryItem :=
  { id := "B", groupId := none, x := 50, y := 50, width := 100, height := 100
    rotation := 0, zIndex := 1, image := none, data := { id := "B" }, tok := 1 }

def regHit : Registry := [itemHitA, itemHitB]

/-- First-inserted member of a zIndex tie: box (0,0)-(100,100), zIndex 0. -/
def itemTie1 : RegistryItem :=
  { id := "T1", groupId := none, x := 0, y := 0, width := 100, height := 100
    rotation := 0, zIndex := 0, image := none, data := { id := "T1" }, tok := 0 }

/-- Second-inserted member of the same tie: same box, same zIndex 0. -/
def itemTie2 : RegistryItem :=
  { id := "T2", groupId := none, x := 0, y := 0, width := 100, height := 100
    rotation := 0, zIndex := 0, image := none, data := { id := "T2" }, tok := 1 }

def regTie : Registry := [itemTie1, itemTie2]

def ptTie : Point := { x := 10, y := 10 }

/-- Member "A" of group g1. -/
def itemGA : RegistryItem :=
  { id := "A", groupId := some "g1", x := 1, y := 2, width := 10, height := 10
    rotation := 0, zIndex := 0, image := none, data := { id := "A" }, tok := 0 }

/-- Member "B" of group g1. -/
def itemGB : RegistryItem :=
  { id := "B", groupId := some "g1", x := 3, y := 4, width := 10, height := 10
    rotation := 0, zIndex := 1, image := none, data := { id := "B" }, tok := 1 }

/-- A registry history in which "B" enters group g1 only after the notify at
t = 0 and before the flush at t = 150. -/
def regAtLateGroup : ℕ → Registry :=
  fun t => if t < 150 then [itemGA] else [itemGA, itemGB]

/-- Item A of the spec end-to-end scenario: (0,0,50,50), zIndex 0, group g. -/
def itemDragA : RegistryItem :=
  { id := "1", groupId := some "g", x := 0, y := 0, width := 50, height := 50
    rotation := 0, zIndex := 0, image := none, data := { id := "1" }, tok := 0 }

/-- Item B of the spec end-to-end scenario: (20,20,50,50), zIndex 1, group g. -/
def itemDragB : RegistryItem :=
  { id := "2", groupId := some "g", x := 20, y := 20, width := 50, height := 50
    rotation := 0, zIndex := 1, image := none, data := { id := "2" }, tok := 1 }

def regDrag : Registry := [itemDragA, itemDragB]

/-- Identity camera: scale 1, no translation. -/
def camId : Camera := { scale := 1, translateX := 0, translateY := 0 }

/-! Claim theorems. -/

/-- C1: for every registry state and every point, findItemAtPoint returns
none exactly when no item's closed box [x, x+width] times [y, y+height]
contains the point, and otherwise returns a registry item whose box contains
the point and whose zIndex is maximal among all items containing it. -/
theorem findItemAtPoint_topmost (reg : Registry) (p : Point) :
    (findItemAtPoint reg p = none ↔ ∀ it ∈ reg, containsPoint it p = false) ∧
    ∀ a, findItemAtPoint reg p = some a →
      a ∈ reg ∧ containsPoint a p = true ∧
      ∀ b ∈ reg, containsPoint b p = true → b.zIndex ≤ a.zIndex := by
  constructor
  · rw [findItemAtPoint, List.find?_eq_none]
    constructor
    · intro h it hit
      have := h it ((sortByZDesc_perm reg).mem_iff.mpr hit)
      simpa using this
    · intro h it hit
      have := h it ((sortByZDesc_perm reg).mem_iff.mp hit)
      simp [this]
  · intro a ha
    have ha' : (sortByZDesc reg).find? (fun it => containsPoint it p) = some a := ha
    have hmem : a ∈ sortByZDesc reg := List.mem_of_find?_eq_some ha'
    have hca := List.find?_some ha'
    refine ⟨(sortByZDesc_perm reg).mem_iff.mp hmem, hca, ?_⟩
    intro b hb hcb
    exact find?_max_z p (sortByZDesc reg) (sortByZDesc_sorted reg) a ha' b
      ((sortByZDesc_perm reg).mem_iff.mpr hb) hcb

/-- Witness for C1 at the spec example: point (60,60) over items A
(0,0,100,100, zIndex 0) and B (50,50,100,100, zIndex 1) hits B, B's box
contains the point, and B's zIndex is maximal among containing items. -/
theorem findItemAtPoint_topmost_witness :
    itemHitB ∈ regHit ∧ containsPoint itemHitB { x := 60, y := 60 } = true ∧
    ∀ b ∈ regHit, containsPoint b { x := 60, y := 60 } = true →
      b.zIndex ≤ itemHitB.zIndex :=
  (findItemAtPoint_topmost regHit { x := 60, y := 60 }).2 itemHitB
    (by norm_num [findItemAtPoint, sortByZDesc, insertDesc, regHit,
      itemHitA, itemHitB, List.find?, containsPoint])

/-- C6 counterexample: two items with equal zIndex whose boxes both contain
the point.  getSortedItems paints itemTie1 first and itemTie2 last, so the
claimed "last drawn wins" tie-break requires the hit test to return
itemTie2; the code returns itemTie1, the first-painted one. -/
theorem hit_test_tie_counterexample :
    findItemAtPoint regTie ptTie = some itemTie1 ∧
    getSortedItems regTie = [itemTie1, itemTie2] ∧
    containsPoint itemTie2 ptTie = true ∧
    itemTie2.zIndex = itemTie1.zIndex ∧
    itemTie1 ≠ itemTie2 := by
  refine ⟨?_, ?_, ?_, by decide, by decide⟩
  · norm_num [findItemAtPoint, sortByZDesc, insertDesc, regTie,
      itemTie1, itemTie2, ptTie, List.find?, containsPoint]
  · norm_num [getSortedItems, sortByZAsc, insertAsc, regTie, itemTie1, itemTie2]
  · norm_num [containsPoint, itemTie2, ptTie]

/-- C6 amended: when several items with equal zIndex contain the point, the
hit test returns the one that getSortedItems places FIRST among that tie
group — both stable sorts keep insertion order inside a tie, so the
hit-test tie-break follows paint order (first-drawn wins) instead of
reversing it; both orders are fixed functions of the registry, hence stable
across repeated calls. -/
theorem hit_test_tie_paint_order (reg : Registry) (p : Point)
    (a : RegistryItem) (h : findItemAtPoint reg p = some a) :
    ∀ b ∈ reg, containsPoint b p = true → b.zIndex = a.zIndex → b ≠ a →
      [a, b].Sublist (getSortedItems reg) := by
  intro b hb hcb hz hne
  have hbd : b ∈ sortByZDesc reg := (sortByZDesc_perm reg).mem_iff.mpr hb
  have hpair : [a, b].Sublist (sortByZDesc reg) :=
    find?_first_pair (fun it => containsPoint it p) (sortByZDesc reg) a h b hbd hcb hne
  have hl : [a, b].Sublist reg :=
    pair_sublist_of_sortByZDesc a b reg hz.symm hpair
  exact pair_sublist_sortByZAsc a b reg hz.symm hl

/-- Witness for the amended C6 on the concrete tie: the returned item
itemTie1 precedes the other containing tie member itemTie2 in paint order. -/
theorem hit_test_tie_paint_order_witness :
    [itemTie1, itemTie2].Sublist (getSortedItems regTie) :=
  hit_test_tie_paint_order regTie ptTie itemTie1
    (by norm_num [findItemAtPoint, sortByZDesc, insertDesc, regTie,
      itemTie1, itemTie2, ptTie, List.find?, containsPoint])
    itemTie2 (by decide)
    (by norm_num [containsPoint, itemTie2, ptTie]) (by decide) (by decide)

/-- C5 counterexample: starting from the initial multiselect state, the
single operation toggle("X") leaves isActive false while the selected set
becomes the non-empty {"X"} — the independently stored isActive flag
disagrees with set emptiness, refuting the claimed equivalence. -/
theorem multiselect_flag_counterexample :
    ¬ ((runMSOps MultiSelectState.init [MSOp.toggle "X"]).isActive = true ↔
       (runMSOps MultiSelectState.init [MSOp.toggle "X"]).selectedIds ≠ []) := by
  decide

/-- C5 amended: isActive = true always implies a non-empty selected set; the
full equivalence of the flag with non-emptiness holds for every run in
which toggle is only issued while the selected set is non-empty (which is
how the gesture controller drives it, since it forwards toggles only while
multiselect is active); and activate("X") followed by toggle("X") yields
isActive = false with an empty selected set. -/
theorem multiselect_flag_amended (ops : List MSOp) :
    ((runMSOps MultiSelectState.init ops).isActive = true →
      (runMSOps MultiSelectState.init ops).selectedIds ≠ []) ∧
    (goodMSRun MultiSelectState.init ops = true →
      ((runMSOps MultiSelectState.init ops).isActive = true ↔
       (runMSOps MultiSelectState.init ops).selectedIds ≠ [])) ∧
    runMSOps MultiSelectState.init [MSOp.activate "X", MSOp.toggle "X"] =
      { isActive := false, selectedIds := [] } := by
  refine ⟨?_, ?_, by decide⟩
  · have key : ∀ s : MultiSelectState, ∀ op : MSOp,
        (applyMSOp s op).isActive = true → (applyMSOp s op).selectedIds ≠ [] := by
      intro s op
      cases op with
      | activate id => exact fun _ hnil => List.noConfusion hnil
      | toggle id =>
        simp only [applyMSOp]
        intro h hnil
        rw [toggle_selectedIds] at hnil
        rw [toggle_isActive, if_pos (by simp [hnil])] at h
        cases h
      | clear => exact fun h => Bool.noConfusion h
    have gen : ∀ ops' : List MSOp, ∀ s : MultiSelectState,
        (s.isActive = true → s.selectedIds ≠ []) →
        ((runMSOps s ops').isActive = true → (runMSOps s ops').selectedIds ≠ []) := by
      intro ops'
      induction ops' with
      | nil => intro s hs; exact hs
      | cons op rest ih =>
        intro s _
        exact ih (applyMSOp s op) (key s op)
    exact gen ops MultiSelectState.init (fun h => Bool.noConfusion h)
  · have gen : ∀ ops' : List MSOp, ∀ s : MultiSelectState,
        (s.isActive = true ↔ s.selectedIds ≠ []) →
        goodMSRun s ops' = true →
        ((runMSOps s ops').isActive = true ↔ (runMSOps s ops').selectedIds ≠ []) := by
      intro ops'
      induction ops' with
      | nil => intro s hs _; exact hs
      | cons op rest ih =>
        intro s hs hgood
        simp only [goodMSRun, Bool.and_eq_true] at hgood
        refine ih (applyMSOp s op) ?_ hgood.2
        cases op with
        | activate id =>
          constructor
          · intro _ hnil
            exact List.noConfusion hnil
          · intro _
            rfl
        | clear =>
          constructor
          · intro h
            exact Bool.noConfusion h
          · intro h
            exact absurd rfl h
        | toggle id =>
          have hne : s.selectedIds ≠ [] := by
            intro hnil
            have h1 := hgood.1
            rw [hnil] at h1
            simp at h1
          show (s.toggle id).isActive = true ↔ (s.toggle id).selectedIds ≠ []
          rw [toggle_isActive, toggle_selectedIds]
          by_cases hemp : (toggledSelectedIds s id).isEmpty = true
          · rw [if_pos hemp]
            constructor
            · intro h
              cases h
            · intro h
              exact absurd (List.isEmpty_iff.mp hemp) h
          · rw [if_neg hemp]
            constructor
            · intro _ hnil
              exact hemp (by simp [hnil])
            · intro _
              exact hs.mpr hne
    refine gen ops MultiSelectState.init ?_
    constructor
    · intro h
      exact absurd h (by decide)
    · intro h
      exact absurd rfl h

/-- Witness for the amended C5: a run that activates "A" and then toggles
"B" satisfies the good-run condition, and the theorem yields the flag/set
equivalence for it. -/
theorem multiselect_flag_amended_witness :
    (runMSOps MultiSelectState.init [MSOp.activate "A", MSOp.toggle "B"]).isActive
        = true ↔
    (runMSOps MultiSelectState.init [MSOp.activate "A", MSOp.toggle "B"]).selectedIds
        ≠ [] :=
  (multiselect_flag_amended [MSOp.activate "A", MSOp.toggle "B"]).2.1 (by decide)

/-- C3: for notify calls each arriving strictly inside the 150 ms quiet
window of the previous one, exactly one commit is delivered, at 150 ms
after the last call; its payload has one {id, snapshot} pair per id in the
accumulated (group-expanded) dirty set that is still in the registry at
flush time, with the snapshot read from the registry at flush time; an id
no longer present at flush time is silently dropped. -/
theorem debounce_single_commit (regAt : ℕ → Registry) (t1 : ℕ) (id1 : String)
    (rest : List (ℕ × String)) (hch : chainedFrom t1 rest = true) :
    runEvents regAt ((t1, id1) :: rest) BatchState.init =
      ({ dirty := [], deadline := none },
       [(lastTime t1 rest + 150,
         flushPayload (regAt (lastTime t1 rest + 150))
           (accDirty regAt [] ((t1, id1) :: rest)))]) ∧
    (∀ i : String,
      (∃ e ∈ flushPayload (regAt (lastTime t1 rest + 150))
          (accDirty regAt [] ((t1, id1) :: rest)), e.id = i) ↔
      (i ∈ accDirty regAt [] ((t1, id1) :: rest) ∧
       (getItem (regAt (lastTime t1 rest + 150)) i).isSome)) ∧
    ∀ e ∈ flushPayload (regAt (lastTime t1 rest + 150))
        (accDirty regAt [] ((t1, id1) :: rest)),
      ∃ it, getItem (regAt (lastTime t1 rest + 150)) e.id = some it ∧
        e = snapshotItem it := by
  refine ⟨?_, fun i => mem_flushPayload_iff _ _ i,
    fun e he => mem_flushPayload_snapshot _ _ e he⟩
  have h0 := runEvents_pending regAt rest t1 (notifyDirty (regAt t1) id1 [])
    (notifyDirty_ne_nil _ _ _) hch
  simp only [runEvents, BatchState.init, accDirty]
  rw [h0]
  simp

/-- Witness for C3: three notifies at t = 0, 50, 100 over a fixed registry
holding grouped items "A" and "B" deliver exactly one commit at t = 250
whose payload snapshots the dirty set {A, B}. -/
theorem debounce_single_commit_witness :
    runEvents (fun _ => [itemGA, itemGB]) [(0, "A"), (50, "A"), (100, "B")]
        BatchState.init =
      ({ dirty := [], deadline := none },
       [(250, flushPayload [itemGA, itemGB] ["A", "B"])]) := by
  have h := (debounce_single_commit (fun _ => [itemGA, itemGB]) 0 "A"
    [(50, "A"), (100, "B")] (by decide)).1
  have h2 : lastTime 0 [(50, "A"), (100, "B")] = 100 := rfl
  have h3 : accDirty (fun _ => [itemGA, itemGB]) []
      [(0, "A"), (50, "A"), (100, "B")] = ["A", "B"] := by decide
  rw [h2, h3] at h
  simpa using h

/-- C4 counterexample: "A" carries groupId g1 and is notified at t = 0 while
the registry holds only A; "B" shares g1 at flush time (t = 150), yet the
delivered payload is the singleton snapshot of A — the group is expanded at
notify time, so the membership formed between notify and flush is not
included, refuting capture "as of flush time". -/
theorem notify_group_flush_counterexample :
    (runEvents regAtLateGroup [(0, "A")] BatchState.init).2 =
      [(150, [snapshotItem itemGA])] ∧
    itemGB ∈ getGroupItems (regAtLateGroup 150) "g1" ∧
    ¬ ∃ e ∈ [snapshotItem itemGA], e.id = "B" := by
  decide

/-- C4 amended: group expansion happens at notify time, not at flush time:
after notify(id) for an item whose groupId is g in the registry at notify
time, every item sharing g at notify time is marked dirty, and each one
still present at flush time contributes its flush-time snapshot to the
single commit delivered 150 ms later; a group formed or edited between the
notify call and the flush is not re-expanded. -/
theorem notify_group_expansion_notify_time (regAt : ℕ → Registry) (t0 : ℕ)
    (id : String) (it : RegistryItem) (hgi : getItem (regAt t0) id = some it)
    (g : String) (hg : it.groupId = some g) (gi : RegistryItem)
    (hmem : gi ∈ getGroupItems (regAt t0) g) (it' : RegistryItem)
    (hflush : getItem (regAt (t0 + 150)) gi.id = some it') :
    runEvents regAt [(t0, id)] BatchState.init =
      ({ dirty := [], deadline := none },
       [(t0 + 150,
         flushPayload (regAt (t0 + 150)) (notifyDirty (regAt t0) id []))]) ∧
    snapshotItem it' ∈
      flushPayload (regAt (t0 + 150)) (notifyDirty (regAt t0) id []) := by
  constructor
  · have hne := notifyDirty_ne_nil (regAt t0) id ([] : List String)
    simp only [runEvents, BatchState.init]
    simp [fireTimer, List.isEmpty_iff, hne]
  · exact snapshot_mem_flushPayload _ _ gi.id it'
      (group_mem_notifyDirty (regAt t0) id [] it hgi g hg gi hmem) hflush

/-- Witness for the amended C4: with "A" and "B" both in g1 throughout,
notify("A") at t = 0 puts B's flush-time snapshot into the commit. -/
theorem notify_group_expansion_notify_time_witness :
    snapshotItem itemGB ∈
      flushPayload [itemGA, itemGB] (notifyDirty [itemGA, itemGB] "A" []) :=
  (notify_group_expansion_notify_time (fun _ => [itemGA, itemGB]) 0 "A"
    itemGA (by decide) "g1" rfl itemGB (by decide) itemGB (by decide)).2

/-- C9: teardown of the batcher with a non-empty dirty set delivers the
pending batch immediately — one {id, snapshot} pair per dirty id still in
the registry, snapshotted against the registry at teardown — rather than
dropping it. -/
theorem teardown_flush_pending (reg : Registry) (s : BatchState)
    (h : s.dirty ≠ []) :
    ∃ p, (teardown reg s).2 = some p ∧
      (∀ i : String,
        (∃ e ∈ p, e.id = i) ↔ (i ∈ s.dirty ∧ (getItem reg i).isSome)) ∧
      ∀ e ∈ p, ∃ it, getItem reg e.id = some it ∧ e = snapshotItem it := by
  refine ⟨flushPayload reg s.dirty, ?_,
    fun i => mem_flushPayload_iff reg s.dirty i,
    fun e he => mem_flushPayload_snapshot reg s.dirty e he⟩
  show (if s.dirty.isEmpty then none
        else some (flushPayload reg s.dirty)) = some (flushPayload reg s.dirty)
  rw [if_neg (by simpa [List.isEmpty_iff] using h)]

/-- Witness for C9: tearing down with dirty set {"A"} over a registry
containing item A delivers the pending payload immediately. -/
theorem teardown_flush_pending_witness :
    ∃ p, (teardown [itemGA] { dirty := ["A"], deadline := some 7 }).2 =
        some p ∧
      (∀ i : String,
        (∃ e ∈ p, e.id = i) ↔ (i ∈ ["A"] ∧ (getItem [itemGA] i).isSome)) ∧
      ∀ e ∈ p, ∃ it, getItem [itemGA] e.id = some it ∧ e = snapshotItem it :=
  teardown_flush_pending [itemGA] { dirty := ["A"], deadline := some 7 }
    (by decide)

/-! Helper lemmas about the drag machinery. -/

theorem getItem_setItemPos (r : Registry) (i j : String) (nx ny : ℚ) :
    getItem (setItemPos r i nx ny) j =
      (getItem r j).map
        (fun it => if it.id == i then { it with x := nx, y := ny } else it) := by
  show (r.map _).find? _ = _
  rw [List.find?_map]
  have hp : ((fun it : RegistryItem => it.id == j) ∘
        (fun it => if it.id == i then { it with x := nx, y := ny } else it)) =
      (fun it : RegistryItem => it.id == j) := by
    funext a
    by_cases h : (a.id == i) = true
    · simp only [Function.comp, if_pos h]
    · simp only [Function.comp, if_neg h]
  rw [hp]
  rfl

theorem getItemPos_setItemPos_self (r : Registry) (i : String) (nx ny : ℚ)
    (h : (getItem r i).isSome = true) :
    getItemPos (setItemPos r i nx ny) i = some (nx, ny) := by
  cases hit : getItem r i with
  | none =>
    rw [hit] at h
    cases h
  | some it =>
    have hid : it.id = i := getItem_eq_some_id r i it hit
    rw [getItemPos, getItem_setItemPos, hit]
    simp [hid]

theorem getItemPos_setItemPos_other (r : Registry) (i j : String) (nx ny : ℚ)
    (hne : j ≠ i) : getItemPos (setItemPos r i nx ny) j = getItemPos r j := by
  rw [getItemPos, getItem_setItemPos, getItemPos]
  cases hit : getItem r j with
  | none => rfl
  | some it =>
    have hid : it.id = j := getItem_eq_some_id r j it hit
    have hfalse : (it.id == i) = false := by
      simp only [beq_eq_false_iff_ne, ne_eq, hid]
      exact hne
    have hne2 : ¬ it.id = i := by
      rw [hid]
      exact hne
    simp [hfalse, hne2]

theorem isSome_setItemPos (r : Registry) (i j : String) (nx ny : ℚ) :
    (getItem (setItemPos r i nx ny) j).isSome = (getItem r j).isSome := by
  rw [getItem_setItemPos]
  cases getItem r j with
  | none => rfl
  | some it => rfl

/-- Positions of entries that every step of the drag fold either skips
(their id equals the active id) or never touches are preserved. -/
theorem foldDrag_preserves (gis : List RegistryItem)
    (gsp : List (String × ℚ × ℚ)) (aid : String) (dx dy : ℚ) (j : String)
    (hj : ∀ c ∈ gis, c.id = j → (c.id == aid) = true) :
    ∀ r : Registry,
    getItemPos
      (gis.foldl
        (fun r' gi =>
          if gi.id == aid then r'
          else
            match gsp.find? (fun e => e.1 == gi.id) with
            | some s => setItemPos r' gi.id (s.2.1 + dx) (s.2.2 + dy)
            | none => r')
        r) j = getItemPos r j := by
  induction gis with
  | nil => intro r; rfl
  | cons c cs ih =>
    intro r
    have hcs : ∀ c' ∈ cs, c'.id = j → (c'.id == aid) = true :=
      fun c' hmem => hj c' (List.mem_cons_of_mem c hmem)
    simp only [List.foldl_cons]
    by_cases hc : (c.id == aid) = true
    · rw [if_pos hc]
      exact ih hcs r
    · rw [if_neg hc]
      have hcj : c.id ≠ j := fun he => hc (hj c (List.mem_cons_self c cs) he)
      cases hs : gsp.find? (fun e => e.1 == c.id) with
      | none =>
        simp only [hs]
        exact ih hcs r
      | some s =>
        simp only [hs]
        rw [ih hcs _,
          getItemPos_setItemPos_other _ _ _ _ _ (fun he => hcj he.symm)]

theorem foldDrag_isSome (gis : List RegistryItem)
    (gsp : List (String × ℚ × ℚ)) (aid : String) (dx dy : ℚ) (j : String) :
    ∀ r : Registry,
    (getItem
      (gis.foldl
        (fun r' gi =>
          if gi.id == aid then r'
          else
            match gsp.find? (fun e => e.1 == gi.id) with
            | some s => setItemPos r' gi.id (s.2.1 + dx) (s.2.2 + dy)
            | none => r')
        r) j).isSome = (getItem r j).isSome := by
  induction gis with
  | nil => intro r; rfl
  | cons c cs ih =>
    intro r
    simp only [List.foldl_cons]
    by_cases hc : (c.id == aid) = true
    · rw [if_pos hc]
      exact ih r
    · rw [if_neg hc]
      cases hs : gsp.find? (fun e => e.1 == c.id) with
      | none =>
        simp only [hs]
        exact ih r
      | some s =>
        simp only [hs]
        rw [ih _, isSome_setItemPos]

/-- A drag-fold member with a recorded start position and an id different
from the active id ends at that start plus the delta. -/
theorem foldDrag_sets_member (gis : List RegistryItem)
    (gsp : List (String × ℚ × ℚ)) (aid : String) (dx dy : ℚ)
    (gi₀ : RegistryItem) (sx sy : ℚ) (hmem : gi₀ ∈ gis)
    (hnd : (gis.map (fun g => g.id)).Nodup)
    (hne : (gi₀.id == aid) = false)
    (hs : gsp.find? (fun e => e.1 == gi₀.id) = some (gi₀.id, sx, sy)) :
    ∀ r : Registry, (getItem r gi₀.id).isSome = true →
    getItemPos
      (gis.foldl
        (fun r' gi =>
          if gi.id == aid then r'
          else
            match gsp.find? (fun e => e.1 == gi.id) with
            | some s => setItemPos r' gi.id (s.2.1 + dx) (s.2.2 + dy)
            | none => r')
        r) gi₀.id = some (sx + dx, sy + dy) := by
  induction gis with
  | nil => cases hmem
  | cons c cs ih =>
    intro r hpres
    simp only [List.map_cons, List.nodup_cons] at hnd
    simp only [List.foldl_cons]
    rcases List.mem_cons.mp hmem with rfl | hmemcs
    · rw [if_neg (by rw [hne]; exact Bool.false_ne_true)]
      simp only [hs]
      have habs : ∀ c' ∈ cs, c'.id = gi₀.id → (c'.id == aid) = true := by
        intro c' hmemcs' he
        exact absurd (he ▸ List.mem_map_of_mem (fun g => g.id) hmemcs') hnd.1
      rw [foldDrag_preserves cs gsp aid dx dy gi₀.id habs _]
      exact getItemPos_setItemPos_self r gi₀.id _ _ hpres
    · by_cases hc : (c.id == aid) = true
      · rw [if_pos hc]
        exact ih hmemcs hnd.2 r hpres
      · rw [if_neg hc]
        cases hsc : gsp.find? (fun e => e.1 == c.id) with
        | none =>
          simp only [hsc]
          exact ih hmemcs hnd.2 r hpres
        | some s =>
          simp only [hsc]
          refine ih hmemcs hnd.2 _ ?_
          rw [isSome_setItemPos]
          exact hpres

theorem find?_map_triple (gis : List RegistryItem)
    (hnd : (gis.map (fun g => g.id)).Nodup) (gi₀ : RegistryItem)
    (hmem : gi₀ ∈ gis) :
    (gis.map (fun gi => (gi.id, gi.x, gi.y))).find?
        (fun e => e.1 == gi₀.id) = some (gi₀.id, gi₀.x, gi₀.y) := by
  rw [List.find?_map]
  have hp : ((fun e : String × ℚ × ℚ => e.1 == gi₀.id) ∘
        (fun gi : RegistryItem => (gi.id, gi.x, gi.y))) =
      (fun gi : RegistryItem => gi.id == gi₀.id) := rfl
  rw [hp, find?_eq_of_mem_nodup gis hnd gi₀ hmem]
  rfl

theorem mem_filterMap_getItem (reg : Registry) (ids : List String)
    (gi : RegistryItem) (h : gi ∈ ids.filterMap (fun id => getItem reg id)) :
    getItem reg gi.id = some gi := by
  rcases List.mem_filterMap.mp h with ⟨i, _, hgi⟩
  have hid : gi.id = i := getItem_eq_some_id reg i gi hgi
  rw [hid]
  exact hgi

theorem filterMap_getItem_ids (reg : Registry) (ids : List String) :
    (ids.filterMap (fun id => getItem reg id)).map (fun g => g.id) =
      ids.filter (fun id => (getItem reg id).isSome) := by
  induction ids with
  | nil => rfl
  | cons a as ih =>
    cases ha : getItem reg a with
    | none =>
      have h1 : (a :: as).filterMap (fun id => getItem reg id) =
          as.filterMap (fun id => getItem reg id) := by
        simp [List.filterMap_cons, ha]
      have h2 : (a :: as).filter (fun id => (getItem reg id).isSome) =
          as.filter (fun id => (getItem reg id).isSome) := by
        simp [List.filter_cons, ha]
      rw [h1, h2, ih]
    | some e =>
      have hid : e.id = a := getItem_eq_some_id reg a e ha
      have h1 : (a :: as).filterMap (fun id => getItem reg id) =
          e :: as.filterMap (fun id => getItem reg id) := by
        simp [List.filterMap_cons, ha]
      have h2 : (a :: as).filter (fun id => (getItem reg id).isSome) =
          a :: as.filter (fun id => (getItem reg id).isSome) := by
        simp [List.filter_cons, ha]
      rw [h1, h2, List.map_cons, ih, hid]

/-- Core of the drag-rigidity argument: whatever branch resolved the drag
set, if the controller refs hold the hit item as active with its captured
origin, a companion list L with unique ids whose entry at the hit id can
only be the hit item itself, and the captured start positions of L, then
applyDrag puts every drag-set member at its captured origin plus the
delta. -/
theorem applyDrag_moves (reg' : Registry) (hit : RegistryItem)
    (L : List RegistryItem) (dx dy : ℚ)
    (hLnd : (L.map (fun g => g.id)).Nodup)
    (hLuniq : ∀ gi ∈ L, gi.id = hit.id → gi = hit)
    (refs : GestureRefs)
    (hact : refs.activeItem = some hit)
    (hdx : refs.dragStartItemX = hit.x) (hdy : refs.dragStartItemY = hit.y)
    (hgi : refs.groupItems = L)
    (hgsp : refs.groupStartPositions = L.map (fun si => (si.id, si.x, si.y)))
    (hpres : ∀ gi ∈ dragSet refs, (getItem reg' gi.id).isSome = true) :
    ∀ gi ∈ dragSet refs,
      getItemPos (applyDrag reg' refs dx dy) gi.id =
        some (gi.x + dx, gi.y + dy) := by
  intro gi hgimem
  have hds : dragSet refs = if L.isEmpty then [hit] else L := by
    simp only [dragSet, hact, hgi]
  have happ : applyDrag reg' refs dx dy =
      L.foldl
        (fun r' gi' =>
          if gi'.id == hit.id then r'
          else
            match (L.map (fun si => (si.id, si.x, si.y))).find?
                (fun e => e.1 == gi'.id) with
            | some s => setItemPos r' gi'.id (s.2.1 + dx) (s.2.2 + dy)
            | none => r')
        (setItemPos reg' hit.id (hit.x + dx) (hit.y + dy)) := by
    simp only [applyDrag, hact, hdx, hdy, hgi, hgsp]
  rw [happ]
  by_cases hL : L.isEmpty = true
  · have hLnil : L = [] := List.isEmpty_iff.mp hL
    have hgihit : gi = hit := by
      rw [hds, if_pos hL] at hgimem
      exact List.mem_singleton.mp hgimem
    rw [hgihit, hLnil]
    simp only [List.foldl_nil]
    refine getItemPos_setItemPos_self reg' hit.id _ _ ?_
    have := hpres gi hgimem
    rwa [hgihit] at this
  · have hgiL : gi ∈ L := by
      rw [hds, if_neg hL] at hgimem
      exact hgimem
    by_cases hgid : (gi.id == hit.id) = true
    · have hgihit : gi = hit := hLuniq gi hgiL (by simpa using hgid)
      rw [hgihit]
      rw [foldDrag_preserves L _ hit.id dx dy hit.id
        (fun c _ he => by simp [he]) _]
      refine getItemPos_setItemPos_self reg' hit.id _ _ ?_
      have := hpres gi hgimem
      rwa [hgihit] at this
    · have hfalse : (gi.id == hit.id) = false := by
        cases h : (gi.id == hit.id) with
        | false => rfl
        | true => exact absurd h hgid
      have hsfind : (L.map (fun si => (si.id, si.x, si.y))).find?
          (fun e => e.1 == gi.id) = some (gi.id, gi.x, gi.y) :=
        find?_map_triple L hLnd gi hgiL
      refine foldDrag_sets_member L _ hit.id dx dy gi gi.x gi.y hgiL hLnd
        hfalse hsfind _ ?_
      rw [isSome_setItemPos]
      exact hpres gi hgimem

/-- C2: for every drag gesture that enters dragging-item mode, every member
of the resolved drag set (the multiselect-selected items when multiselect
is active and the hit item is selected, else the hit item's whole group
when it has one, else the hit item alone) ends each pan update at its
captured origin plus one identical delta — the cumulative translation
divided by the current camera scale — so any two members' relative offset
is preserved exactly.  The update may run against any later registry state
reg' still containing the drag-set ids, and against the camera state cam'
current at that update. -/
theorem drag_set_rigid_motion (reg : Registry) (ms : MultiSelectState)
    (cam cam' : Camera) (refs0 : GestureRefs) (sx sy : ℚ)
    (hnd : (reg.map (fun it => it.id)).Nodup)
    (hms : ms.selectedIds.Nodup)
    (hmode : (beginGesture reg ms cam refs0 sx sy).mode = 2)
    (reg' : Registry)
    (hpres : ∀ gi ∈ dragSet (beginGesture reg ms cam refs0 sx sy),
      (getItem reg' gi.id).isSome = true)
    (tx ty : ℚ) :
    (∀ gi ∈ dragSet (beginGesture reg ms cam refs0 sx sy),
      getItemPos (panUpdateDragging reg' cam'
          (beginGesture reg ms cam refs0 sx sy) tx ty) gi.id =
        some (gi.x + tx / cam'.scale, gi.y + ty / cam'.scale)) ∧
    ∀ gi ∈ dragSet (beginGesture reg ms cam refs0 sx sy),
      ∀ gj ∈ dragSet (beginGesture reg ms cam refs0 sx sy),
      ∃ pi pj,
        getItemPos (panUpdateDragging reg' cam'
            (beginGesture reg ms cam refs0 sx sy) tx ty) gi.id = some pi ∧
        getItemPos (panUpdateDragging reg' cam'
            (beginGesture reg ms cam refs0 sx sy) tx ty) gj.id = some pj ∧
        pi.1 - pj.1 = gi.x - gj.x ∧ pi.2 - pj.2 = gi.y - gj.y := by
  have hmain : ∀ gi ∈ dragSet (beginGesture reg ms cam refs0 sx sy),
      getItemPos (panUpdateDragging reg' cam'
          (beginGesture reg ms cam refs0 sx sy) tx ty) gi.id =
        some (gi.x + tx / cam'.scale, gi.y + ty / cam'.scale) := by
    cases hhit : findItemAtPoint reg (screenToCanvas cam { x := sx, y := sy }) with
    | none =>
      exfalso
      have h1 : (beginGesture reg ms cam refs0 sx sy).mode = 1 := by
        simp [beginGesture, hhit]
      rw [h1] at hmode
      exact absurd hmode (by decide)
    | some hit =>
      have hhitmem : hit ∈ reg :=
        (sortByZDesc_perm reg).mem_iff.mp (List.mem_of_find?_eq_some hhit)
      have hhitid : getItem reg hit.id = some hit :=
        find?_eq_of_mem_nodup reg hnd hit hhitmem
      by_cases hcase : (ms.isActive && ms.selectedIds.contains hit.id) = true
      · have hcP : ms.isActive = true ∧ hit.id ∈ ms.selectedIds := by
          simpa using hcase
        have hact : (beginGesture reg ms cam refs0 sx sy).activeItem =
            some hit := by
          simp [beginGesture, hhit, hcP.1, hcP.2]
        have hdxx : (beginGesture reg ms cam refs0 sx sy).dragStartItemX =
            hit.x := by
          simp [beginGesture, hhit, hcP.1, hcP.2]
        have hdyy : (beginGesture reg ms cam refs0 sx sy).dragStartItemY =
            hit.y := by
          simp [beginGesture, hhit, hcP.1, hcP.2]
        have hgii : (beginGesture reg ms cam refs0 sx sy).groupItems =
            ms.selectedIds.filterMap (fun id => getItem reg id) := by
          simp [beginGesture, hhit, hcP.1, hcP.2]
        have hgspp :
            (beginGesture reg ms cam refs0 sx sy).groupStartPositions =
              (ms.selectedIds.filterMap (fun id => getItem reg id)).map
                (fun si => (si.id, si.x, si.y)) := by
          simp [beginGesture, hhit, hcP.1, hcP.2]
        have hLnd : ((ms.selectedIds.filterMap
              (fun id => getItem reg id)).map (fun g => g.id)).Nodup := by
          rw [filterMap_getItem_ids]
          exact hms.filter _
        have hLuniq : ∀ gi ∈ ms.selectedIds.filterMap
              (fun id => getItem reg id), gi.id = hit.id → gi = hit := by
          intro gi hgiL he
          have h1 := mem_filterMap_getItem reg ms.selectedIds gi hgiL
          rw [he, hhitid] at h1
          injection h1 with h1
          exact h1.symm
        exact applyDrag_moves reg' hit _ _ _ hLnd hLuniq _ hact hdxx hdyy
          hgii hgspp hpres
      · have hcN : ¬(ms.isActive = true ∧ hit.id ∈ ms.selectedIds) := by
          simpa using hcase
        cases hg : hit.groupId with
        | some g =>
          have hact : (beginGesture reg ms cam refs0 sx sy).activeItem =
              some hit := by
            simp [beginGesture, hhit, hcN, hg]
          have hdxx : (beginGesture reg ms cam refs0 sx sy).dragStartItemX =
              hit.x := by
            simp [beginGesture, hhit, hcN, hg]
          have hdyy : (beginGesture reg ms cam refs0 sx sy).dragStartItemY =
              hit.y := by
            simp [beginGesture, hhit, hcN, hg]
          have hgii : (beginGesture reg ms cam refs0 sx sy).groupItems =
              getGroupItems reg g := by
            simp [beginGesture, hhit, hcN, hg]
          have hgspp :
              (beginGesture reg ms cam refs0 sx sy).groupStartPositions =
                (getGroupItems reg g).map (fun si => (si.id, si.x, si.y)) := by
            simp [beginGesture, hhit, hcN, hg]
          have hLnd : ((getGroupItems reg g).map (fun g' => g'.id)).Nodup :=
            hnd.sublist ((List.filter_sublist reg).map (fun it => it.id))
          have hLuniq : ∀ gi ∈ getGroupItems reg g, gi.id = hit.id →
              gi = hit := by
            intro gi hgiL he
            have hgireg : gi ∈ reg := List.mem_of_mem_filter hgiL
            have h1 := find?_eq_of_mem_nodup reg hnd gi hgireg
            rw [he] at h1
            have h2 : some hit = some gi := by
              rw [← hhitid]
              exact h1
            injection h2 with h2
            exact h2.symm
          exact applyDrag_moves reg' hit _ _ _ hLnd hLuniq _ hact hdxx hdyy
            hgii hgspp hpres
        | none =>
          have hact : (beginGesture reg ms cam refs0 sx sy).activeItem =
              some hit := by
            simp [beginGesture, hhit, hcN, hg]
          have hdxx : (beginGesture reg ms cam refs0 sx sy).dragStartItemX =
              hit.x := by
            simp [beginGesture, hhit, hcN, hg]
          have hdyy : (beginGesture reg ms cam refs0 sx sy).dragStartItemY =
              hit.y := by
            simp [beginGesture, hhit, hcN, hg]
          have hgii : (beginGesture reg ms cam refs0 sx sy).groupItems =
              ([] : List RegistryItem) := by
            simp [beginGesture, hhit, hcN, hg]
          have hgspp :
              (beginGesture reg ms cam refs0 sx sy).groupStartPositions =
                ([] : List RegistryItem).map (fun si => (si.id, si.x, si.y)) := by
            simp [beginGesture, hhit, hcN, hg]
          exact applyDrag_moves reg' hit [] _ _ (by simp)
            (fun gi hgi => absurd hgi (List.not_mem_nil gi)) _ hact hdxx hdyy
            hgii hgspp hpres
  refine ⟨hmain, ?_⟩
  intro gi hgi gj hgj
  exact ⟨(gi.x + tx / cam'.scale, gi.y + ty / cam'.scale),
    (gj.x + tx / cam'.scale, gj.y + ty / cam'.scale),
    hmain gi hgi, hmain gj hgj, by ring, by ring⟩

/-- Witness for C2 at the spec end-to-end scenario: a pan beginning at
(30,30) hits B (higher zIndex), resolves the drag set to group g = {A, B},
and dragging by (10,10) at scale 1 puts B at its origin plus (10,10). -/
theorem drag_set_rigid_motion_witness :
    getItemPos (panUpdateDragging regDrag camId
        (beginGesture regDrag MultiSelectState.init camId GestureRefs.init
          30 30) 10 10) itemDragB.id =
      some (itemDragB.x + 10 / camId.scale, itemDragB.y + 10 / camId.scale) := by
  have hrefs : beginGesture regDrag MultiSelectState.init camId
      GestureRefs.init 30 30 =
      { mode := 2, savedCameraX := 0, savedCameraY := 0, savedScale := 1
        dragStartItemX := 20, dragStartItemY := 20
        activeItem := some itemDragB
        groupItems := [itemDragA, itemDragB]
        groupStartPositions := [("1", 0, 0), ("2", 20, 20)] } := by
    norm_num [beginGesture, screenToCanvas, findItemAtPoint, sortByZDesc,
      insertDesc, containsPoint, getGroupItems, regDrag, itemDragA, itemDragB,
      camId, GestureRefs.init, MultiSelectState.init, List.find?]
  exact (drag_set_rigid_motion regDrag MultiSelectState.init camId camId
    GestureRefs.init 30 30 (by decide) (by decide)
    (by rw [hrefs]) regDrag
    (by rw [hrefs]; decide) 10 10).1 itemDragB (by rw [hrefs]; decide)

/-- C7: syncing twice with an identical non-empty item list is idempotent
on the registry, identity tokens included: the second sync leaves every
entry (fields and creation token) exactly as the first left it and never
consumes a fresh token, i.e. it never discards and recreates an entry for a
continuing id; and the entries carry the provided-or-default values
(x=0, y=0, width=200, height=200, rotation=0, zIndex=0 for absent fields),
which an in-place update re-applies. -/
theorem sync_idempotent_identity (reg : Registry) (items : List BoardItemData)
    (v1 v2 f1 f2 : ℕ)
    (hreg : (reg.map (fun it => it.id)).Nodup)
    (hitems : (items.map (fun d => d.id)).Nodup) (hne : items ≠ []) :
    (sync (sync reg (some items) v1 f1).1 (some items) v2 f2).1 =
      (sync reg (some items) v1 f1).1 ∧
    (sync (sync reg (some items) v1 f1).1 (some items) v2 f2).2.2 = f2 ∧
    ∀ d ∈ items, ∃ e,
      getItem (sync reg (some items) v1 f1).1 d.id = some e ∧
      e.x = d.x.getD 0 ∧ e.y = d.y.getD 0 ∧ e.width = d.width.getD 200 ∧
      e.height = d.height.getD 200 ∧ e.rotation = d.rotation.getD 0 ∧
      e.zIndex = d.zIndex.getD 0 ∧ e.groupId = d.groupId ∧ e.data = d := by
  have hempty : items.isEmpty = false := by
    cases items with
    | nil => exact absurd rfl hne
    | cons a as => rfl
  have hsyncEq : ∀ (r : Registry) (v f : ℕ),
      sync r (some items) v f =
        ((syncItems r items f).1, v + 1, (syncItems r items f).2) := by
    intro r v f
    simp [sync, hempty]
  have hspec := syncFold_spec items (removeStale reg items, f1)
    (removeStale_nodup reg items hreg) hitems
  have hsub : ∀ e ∈ (syncItems reg items f1).1, ∃ d ∈ items, d.id = e.id := by
    intro e he
    have hmem := syncFold_ids_subset items (removeStale reg items, f1)
      (items.map (fun d => d.id))
      (fun e' he' => by
        rcases mem_removeStale reg items e' he' with ⟨_, d', hd', hid⟩
        exact hid ▸ List.mem_map_of_mem (fun d => d.id) hd')
      (fun d hd => List.mem_map_of_mem (fun d => d.id) hd) e he
    rcases List.mem_map.mp hmem with ⟨d, hd, hid⟩
    exact ⟨d, hd, hid⟩
  have hstale2 : removeStale (syncItems reg items f1).1 items =
      (syncItems reg items f1).1 :=
    removeStale_eq_self _ items hsub
  have hfold2 : items.foldl upsertOne ((syncItems reg items f1).1, f2) =
      ((syncItems reg items f1).1, f2) :=
    syncFold_fixed_eq items _ hspec.1 hspec.2.1
  have hsync2 : syncItems (syncItems reg items f1).1 items f2 =
      ((syncItems reg items f1).1, f2) := by
    show items.foldl upsertOne
      (removeStale (syncItems reg items f1).1 items, f2) = _
    rw [hstale2]
    exact hfold2
  have hr1 : (sync reg (some items) v1 f1).1 = (syncItems reg items f1).1 := by
    rw [hsyncEq]
  refine ⟨?_, ?_, ?_⟩
  · rw [hr1, hsyncEq, hsync2]
  · rw [hr1, hsyncEq]
    show (syncItems (syncItems reg items f1).1 items f2).2 = f2
    rw [hsync2]
  · intro d hd
    rcases hspec.2.1 d hd with ⟨e, hfind, hfix⟩
    refine ⟨e, ?_, (congrArg RegistryItem.x hfix).symm,
      (congrArg RegistryItem.y hfix).symm,
      (congrArg RegistryItem.width hfix).symm,
      (congrArg RegistryItem.height hfix).symm,
      (congrArg RegistryItem.rotation hfix).symm,
      (congrArg RegistryItem.zIndex hfix).symm,
      (congrArg RegistryItem.groupId hfix).symm,
      (congrArg RegistryItem.data hfix).symm⟩
    rw [hr1]
    exact hfind

/-- Witness for C7: syncing an empty registry twice with two fresh items,
with different fresh-token bases, reproduces the first result exactly and
consumes no token the second time. -/
theorem sync_idempotent_identity_witness :
    (sync (sync [] (some [{ id := "A" }, { id := "B", x := some 7 }]) 0 0).1
        (some [{ id := "A" }, { id := "B", x := some 7 }]) 4 50).1 =
      (sync [] (some [{ id := "A" }, { id := "B", x := some 7 }]) 0 0).1 ∧
    (sync (sync [] (some [{ id := "A" }, { id := "B", x := some 7 }]) 0 0).1
        (some [{ id := "A" }, { id := "B", x := some 7 }]) 4 50).2.2 = 50 :=
  ⟨(sync_idempotent_identity [] [{ id := "A" }, { id := "B", x := some 7 }]
      0 4 0 50 (by decide) (by decide) (by decide)).1,
   (sync_idempotent_identity [] [{ id := "A" }, { id := "B", x := some 7 }]
      0 4 0 50 (by decide) (by decide) (by decide)).2.1⟩

/-- C8: the code evaluated at the failing input: syncing a one-item
registry against an undefined (none) or empty item list clears the
registry but leaves the version counter untouched — the early return skips
the setVersion call — while a non-empty sync does increment it.  The claim
(and spec §4.1) says every sync signals a version change. -/
theorem sync_empty_skips_version_signal :
    sync [itemGA] none 5 3 = ([], 5, 3) ∧
    sync [itemGA] (some []) 5 3 = ([], 5, 3) ∧
    (sync [itemGA] (some [{ id := "A" }]) 5 3).2.1 = 6 := by
  decide

/-- C10: a pinch update writes only the camera scale, setting it to the
scale captured at pinch begin times the recognizer's live ratio with no
clamp; translateX, translateY and the whole registry (every item's
transform fields) are untouched. -/
theorem pinch_scale_only (s : BoardState) (ratio : ℚ) :
    (pinchUpdate (pinchBegin s) ratio).cam.scale = s.cam.scale * ratio ∧
    (pinchUpdate (pinchBegin s) ratio).cam.translateX = s.cam.translateX ∧
    (pinchUpdate (pinchBegin s) ratio).cam.translateY = s.cam.translateY ∧
    (pinchUpdate (pinchBegin s) ratio).reg = s.reg :=
  ⟨rfl, rfl, rfl, rfl⟩

end SkiaBoard
